import Mathlib

/-!
Verification of the offline-first local/remote synchronization engine of the
my-calendar-frontend-mvp repository.

The development shallowly embeds the sync subsystem:

* `SyncService.mergeData` — the last-write-wins merge resolver
  (`src/unnamed/part_011`, lines 472–504), including the JavaScript
  `Map` insertion-order semantics and the `new Date(...).getTime()`
  timestamp comparison with its NaN behaviour.
* `SyncService.addPendingOperation` / `SyncService.processPendingOperations`
  — the pending-operation queue (`src/unnamed/part_011`).
* A small-step trace model of `SyncService.syncAll`'s entry guard
  (`src/unnamed/part_011`, lines 309–357).
* `StorageService.loadEvents` / `saveEvent` / `deleteEvent`
  (`src/unnamed/part_012`).
* `ContactsService.add` / `OccasionsService.add` optimistic-update rollback
  (`src/unnamed/part_016`).
* The Supabase row translations `toSupabaseEvent` / `fromSupabaseEvent`
  (both revisions present in `src/src/app/services/supabase.service.ts`)
  together with the contact and occasion translations.
-/

namespace CalendarSync

/-! ### JavaScript date model

`mergeData` compares timestamps with `new Date(x.updatedAt || 0).getTime()`.
We model `getTime()` as `Option Int` (milliseconds since the Unix epoch,
`none` standing for NaN).  `jsDateParse` implements the ECMAScript
Date Time String Format for the UTC-anchored ISO-8601 shapes produced by
`Date.prototype.toISOString` (`YYYY-MM-DD` and
`YYYY-MM-DDTHH:MM[:SS[.sss]]Z`); every other string is treated as
unparseable (`none`, i.e. NaN), matching `new Date("garbage").getTime()`.
-/

/-- Split a character list on a separator character (the separator is
dropped; `n + 1` groups result from `n` separators). -/
def splitOnChar (c : Char) : List Char → List (List Char)
  | [] => [[]]
  | x :: xs =>
    match splitOnChar c xs with
    | [] => [[]]
    | g :: gs => if x = c then [] :: g :: gs else (x :: g) :: gs

/-- Decimal digit test. -/
def isDigitChar (c : Char) : Bool :=
  decide (48 ≤ c.toNat) && decide (c.toNat ≤ 57)

/-- Numeric value of a decimal digit character. -/
def digitVal (c : Char) : Nat := c.toNat - 48

/-- Parse a group of exactly `n` decimal digits. -/
def digitsOfLen (n : Nat) (cs : List Char) : Option Nat :=
  if cs.length = n ∧ cs.all isDigitChar then
    some (cs.foldl (fun acc c => acc * 10 + digitVal c) 0)
  else none

/-- Gregorian leap-year test. -/
def isLeapYear (y : Nat) : Bool :=
  y % 4 == 0 && (y % 100 != 0 || y % 400 == 0)

/-- Number of days in month `m` of year `y`. -/
def daysInMonth (y m : Nat) : Nat :=
  if m == 2 then (if isLeapYear y then 29 else 28)
  else if m == 4 || m == 6 || m == 9 || m == 11 then 30
  else 31

/-- Days since 1970-01-01 of the civil date `y-m-d`
(standard days-from-civil algorithm; division truncates toward zero,
and the branch on the adjusted year keeps every intermediate
quantity nonnegative exactly as in the reference algorithm). -/
def daysFromCivil (y m d : Int) : Int :=
  let yAdj : Int := if m ≤ 2 then y - 1 else y
  let era : Int := (if 0 ≤ yAdj then yAdj else yAdj - 399) / 400
  let yoe : Int := yAdj - era * 400
  let mp : Int := (m + 9) % 12
  let doy : Int := (153 * mp + 2) / 5 + d - 1
  let doe : Int := yoe * 365 + yoe / 4 - yoe / 100 + doy
  era * 146097 + doe - 719468

/-- Parse a calendar-date field `YYYY-MM-DD` to days since the epoch. -/
def parseDateISO (s : List Char) : Option Int :=
  match splitOnChar (Char.ofNat 45) s with
  | [ys, ms, ds] => do
    let y ← digitsOfLen 4 ys
    let m ← digitsOfLen 2 ms
    let d ← digitsOfLen 2 ds
    if 1 ≤ m ∧ m ≤ 12 ∧ 1 ≤ d ∧ d ≤ daysInMonth y m then
      pure (daysFromCivil y m d)
    else none
  | _ => none

/-- Parse a seconds field `SS` or `SS.sss` to milliseconds. -/
def parseSecondsField (s : List Char) : Option Int :=
  match splitOnChar (Char.ofNat 46) s with
  | [ss] => do
    let sec ← digitsOfLen 2 ss
    if sec ≤ 59 then pure ((sec : Int) * 1000) else none
  | [ss, ms] => do
    let sec ← digitsOfLen 2 ss
    let milli ← digitsOfLen 3 ms
    if sec ≤ 59 then pure ((sec : Int) * 1000 + milli) else none
  | _ => none

/-- Parse a time-of-day field `HH:MM`, `HH:MM:SS` or `HH:MM:SS.sss`
to milliseconds past midnight. -/
def parseTimeISO (s : List Char) : Option Int :=
  match splitOnChar (Char.ofNat 58) s with
  | [hs, mins] => do
    let h ← digitsOfLen 2 hs
    let mi ← digitsOfLen 2 mins
    if h ≤ 23 ∧ mi ≤ 59 then pure (((h : Int) * 60 + mi) * 60000) else none
  | [hs, mins, secs] => do
    let h ← digitsOfLen 2 hs
    let mi ← digitsOfLen 2 mins
    let sm ← parseSecondsField secs
    if h ≤ 23 ∧ mi ≤ 59 then pure (((h : Int) * 60 + mi) * 60000 + sm)
    else none
  | _ => none

/-- Model of `new Date(s).getTime()` on the ISO strings this application
produces, as a function of the character list: `some` milliseconds since
the epoch, `none` for NaN. -/
def jsDateParseChars (s : List Char) : Option Int :=
  match splitOnChar (Char.ofNat 84) s with
  | [d] => (parseDateISO d).map (· * 86400000)
  | [d, t] =>
    if t.getLast? = some (Char.ofNat 90) then do
      let days ← parseDateISO d
      let ms ← parseTimeISO t.dropLast
      pure (days * 86400000 + ms)
    else none
  | _ => none

/-- Model of `new Date(s).getTime()` on a string. -/
def jsDateParse (s : String) : Option Int := jsDateParseChars s.data

/-- Model of `new Date(u || 0).getTime()` for an optional `updatedAt`
string: a missing or empty (falsy) string yields `new Date(0)`, i.e.
epoch instant `0`; anything else is parsed, `none` standing for NaN. -/
def jsGetTime : Option String → Option Int
  | none => some 0
  | some s => if s = "" then some 0 else jsDateParse s

/-- JavaScript `>` on two `getTime()` results: `nanGt a b` is `a > b`,
and any comparison involving NaN (`none`) is `false`. -/
def nanGt : Option Int → Option Int → Bool
  | some a, some b => decide (b < a)
  | _, _ => false

/-! ### The merge resolver

`SyncService.mergeData` (src/unnamed/part_011, lines 472–504) is generic in
`T extends { id: string; updatedAt?: string }`; `SyncEntity` plays the role
of `T`, with `payload` standing for the remaining domain fields (so that
the local and the remote copy of an id are distinguishable values). -/

/-- An entity as seen by the merge resolver. -/
structure SyncEntity where
  id : String
  updatedAt : Option String
  payload : String
deriving DecidableEq, Repr

/-- The `getTime()` value `mergeData` computes for an entity. -/
def entityTime (e : SyncEntity) : Option Int := jsGetTime e.updatedAt

/-- JavaScript `Map.prototype.set` on an insertion-ordered association
list: updating an existing key replaces the value in place, a new key is
appended at the tail. -/
def mapSet (m : List SyncEntity) (e : SyncEntity) : List SyncEntity :=
  if m.any (fun x => x.id == e.id) then
    m.map (fun x => if x.id == e.id then e else x)
  else m ++ [e]

/-- One iteration of `mergeData`'s loop over the remote list:
`merged.get(remoteItem.id)` followed by the timestamp comparison. -/
def mergeRemote (m : List SyncEntity) (r : SyncEntity) : List SyncEntity :=
  match m.find? (fun x => x.id == r.id) with
  | none => m ++ [r]
  | some l =>
    if nanGt (entityTime r) (entityTime l) then
      m.map (fun x => if x.id == r.id then r else x)
    else m

/-- `SyncService.mergeData(local, remote)`: seed a `Map` with the local
items, then fold the remote items through the last-write-wins comparison;
`Array.from(merged.values())` returns the insertion-ordered list. -/
def SyncService.mergeData (localList remote : List SyncEntity) :
    List SyncEntity :=
  remote.foldl mergeRemote (localList.foldl mapSet [])

/-- The ids of the entries of a merge map, in order. -/
def keys (m : List SyncEntity) : List String := m.map (·.id)

/-- The map invariant: no two entries share an id. -/
def NodupKeys (m : List SyncEntity) : Prop := (keys m).Nodup

/-! ### The pending-operation queue

`src/unnamed/part_011`, lines 102–108 (the `PendingOperation` interface),
262–283 (`addPendingOperation`), 288–293 (`removePendingOperation`) and
647–722 (`processPendingOperations`). -/

/-- The three entity kinds of the queue (`PendingOperation['type']`). -/
inductive EntityKind where
  | events
  | contacts
  | occasions
deriving DecidableEq, Repr

/-- The two queued actions (`PendingOperation['action']`). -/
inductive OpAction where
  | upsert
  | delete
deriving DecidableEq, Repr

/-- A queue entry, as in the `PendingOperation` interface. -/
structure PendingOperation where
  id : String
  type : EntityKind
  action : OpAction
  entityId : String
  timestamp : String
deriving DecidableEq, Repr

/-- `SyncService.addPendingOperation(type, action, entityId)`: build the
new operation (its `id` from `crypto.randomUUID()` and its `timestamp`
from `new Date().toISOString()` are environment-supplied, so they appear
as the explicit arguments `freshId` and `ts`), drop every queued operation
for the same `(type, entityId)` pair, and append the new one. -/
def SyncService.addPendingOperation (ops : List PendingOperation)
    (type : EntityKind) (action : OpAction) (entityId : String)
    (freshId ts : String) : List PendingOperation :=
  ops.filter (fun op => !(op.type == type && op.entityId == entityId))
    ++ [⟨freshId, type, action, entityId, ts⟩]

/-- A request to `addPendingOperation`, with the environment-chosen fresh
operation id and timestamp attached. -/
structure AddRequest where
  type : EntityKind
  action : OpAction
  entityId : String
  freshId : String
  ts : String
deriving DecidableEq, Repr

/-- A sequence of `addPendingOperation` calls starting from the empty
queue. -/
def runAdds (reqs : List AddRequest) : List PendingOperation :=
  reqs.foldl
    (fun acc r =>
      SyncService.addPendingOperation acc r.type r.action r.entityId
        r.freshId r.ts)
    []

/-- Environment of the queue flush: the Supabase remote calls (which may
report success `true`, report failure `false`, or throw, modelled by
`Except`) and the local-store lookup (`loadEvents().find`, `getContact`,
`getOccasion` — these catch internally and never throw, so the lookup is
total). -/
structure FlushEnv where
  remoteDelete : EntityKind → String → Except String Bool
  remoteUpsert : EntityKind → SyncEntity → Except String Bool
  lookup : EntityKind → String → Option SyncEntity

/-- The replay of one queue entry inside `processPendingOperations`'s
loop body: a delete re-issues the remote delete; an upsert re-reads the
current local entity and re-submits it, and when the entity no longer
exists locally the operation is vacuously satisfied (`success = true`)
with no remote call. -/
def processOp (env : FlushEnv) (op : PendingOperation) :
    Except String Bool :=
  match op.action with
  | .delete => env.remoteDelete op.type op.entityId
  | .upsert =>
    match env.lookup op.type op.entityId with
    | some e => env.remoteUpsert op.type e
    | none => Except.ok true

/-- Whether the replay of `op` issues a remote call: always for a delete,
and for an upsert only when the entity still exists locally. -/
def opMakesRemoteCall (env : FlushEnv) (op : PendingOperation) : Bool :=
  match op.action with
  | .delete => true
  | .upsert => (env.lookup op.type op.entityId).isSome

/-- Whether the replay of `op` reports success (a thrown error is caught
by the loop's `try/catch` and counts as not successful). -/
def opSucceeds (env : FlushEnv) (op : PendingOperation) : Bool :=
  match processOp env op with
  | .ok true => true
  | _ => false

/-- `SyncService.processPendingOperations()`: iterate over the snapshot
of the queue; after each successful replay, `removePendingOperation`
filters the entry's id out of the live queue; a failed or throwing replay
leaves the queue untouched. The result is the final queue. -/
def SyncService.processPendingOperations (env : FlushEnv)
    (q : List PendingOperation) : List PendingOperation :=
  q.foldl
    (fun acc op =>
      if opSucceeds env op then acc.filter (fun p => !(p.id == op.id))
      else acc)
    q

/-- A concrete flush environment for evaluating the queue flush: deletes
succeed for entity `"ok"`, report failure for `"fail"`, and throw for
anything else; upserts succeed; only entity `"present"` still exists in
the local store. -/
def flushEnvExample : FlushEnv where
  remoteDelete := fun _ eid =>
    if eid == "ok" then Except.ok true
    else if eid == "fail" then Except.ok false
    else Except.error "network down"
  remoteUpsert := fun _ _ => Except.ok true
  lookup := fun _ eid =>
    if eid == "present" then some ⟨"present", none, "entity"⟩ else none

/-- A concrete pending queue exercising the four flush outcomes:
successful delete, failed delete, throwing delete, and a vacuous upsert
whose entity is gone locally. -/
def flushQueueExample : List PendingOperation :=
  [⟨"1", EntityKind.events, OpAction.delete, "ok", "t"⟩,
   ⟨"2", EntityKind.events, OpAction.delete, "fail", "t"⟩,
   ⟨"3", EntityKind.events, OpAction.delete, "boom", "t"⟩,
   ⟨"4", EntityKind.events, OpAction.upsert, "absent", "t"⟩]

/-! ### The sync scheduler's entry guard

`SyncService.syncAll` (src/unnamed/part_011, lines 309–357) checks only
`canSync()` — authenticated and online — before setting the status to
`'syncing'` and awaiting the three per-kind syncs.  The small-step model
below records the synchronous prefix of each invocation (`startSync`) and
the completion of an in-flight execution (`finishSync`); `inFlight`
counts full-sync executions that have passed the guard and not yet
completed. -/

/-- The five scheduler states (`SyncStatus`). -/
inductive SyncStatus where
  | idle
  | syncing
  | success
  | error
  | offline
deriving DecidableEq, Repr

/-- Scheduler trace state: the status signal and the number of full-sync
executions currently in flight. -/
structure SchedulerState where
  status : SyncStatus
  inFlight : Nat
deriving DecidableEq, Repr

/-- Initial scheduler state. -/
def initialSchedulerState : SchedulerState := ⟨SyncStatus.idle, 0⟩

/-- Events of the scheduler trace model: an invocation of `syncAll`
(with the values of `canSync()` and `isOnline()` it observes), or the
settling of an in-flight execution's awaited per-kind syncs. -/
inductive SchedEvent where
  | startSync (canSync online : Bool)
  | finishSync (ok : Bool)
deriving DecidableEq, Repr

/-- The synchronous prefix of `syncAll()`: when `canSync()` fails, set
the status to `'idle'` or `'offline'` and return; otherwise set
`'syncing'` and begin a (new, unconditionally started) full-sync
execution. -/
def syncAllStart (s : SchedulerState) (canSync online : Bool) :
    SchedulerState :=
  if canSync then ⟨SyncStatus.syncing, s.inFlight + 1⟩
  else ⟨if online then SyncStatus.idle else SyncStatus.offline, s.inFlight⟩

/-- Completion of one in-flight execution: status becomes `'success'`
or `'error'` and the execution leaves flight. -/
def syncAllFinish (s : SchedulerState) (ok : Bool) : SchedulerState :=
  ⟨if ok then SyncStatus.success else SyncStatus.error, s.inFlight - 1⟩

/-- One step of the scheduler trace model. -/
def schedStep (s : SchedulerState) : SchedEvent → SchedulerState
  | .startSync c o => syncAllStart s c o
  | .finishSync ok => syncAllFinish s ok

/-- Run the scheduler trace model over a list of events. -/
def schedRun (s : SchedulerState) (evts : List SchedEvent) :
    SchedulerState :=
  evts.foldl schedStep s

/-! ### The local store

`StorageService` (src/unnamed/part_012).  Each method wraps one Dexie
call in `try/catch`; the outcome of the underlying storage-engine call is
the explicit `Except` argument. -/

/-- `StorageService.loadEvents()`: the read path catches the
storage-engine fault and returns an empty list. -/
def StorageService.loadEvents (attempt : Except String (List SyncEntity)) :
    List SyncEntity :=
  match attempt with
  | .ok evs => evs
  | .error _ => []

/-- `StorageService.saveEvent(event)`: the write path logs and rethrows
the storage-engine fault. -/
def StorageService.saveEvent (attempt : Except String Unit) :
    Except String Unit :=
  match attempt with
  | .ok _ => Except.ok ()
  | .error e => Except.error e

/-- `StorageService.deleteEvent(id)`: the delete path logs and rethrows
the storage-engine fault. -/
def StorageService.deleteEvent (attempt : Except String Unit) :
    Except String Unit :=
  match attempt with
  | .ok _ => Except.ok ()
  | .error e => Except.error e

/-! ### Entity services: optimistic add with rollback

`ContactsService.add` (src/unnamed/part_016, lines 620–648) and
`OccasionsService.add` (lines 880–907).  The in-memory signal is the
list argument; the generated id and the `now` timestamp are
environment-supplied; `saveOk` is the outcome of the awaited local-store
write. -/

/-- A contact (`src/unnamed/part_026`, interface `Contact`). -/
structure Contact where
  id : String
  firstName : String
  lastName : String
  email : Option String
  phone : Option String
  notes : Option String
  createdAt : String
  updatedAt : String
deriving DecidableEq, Repr

/-- Contact form data (`NewContact`, without id and timestamps). -/
structure NewContact where
  firstName : String
  lastName : String
  email : Option String
  phone : Option String
  notes : Option String
deriving DecidableEq, Repr

/-- `ContactsService.add(contactData)`: build the contact with the fresh
id and timestamps, append it optimistically, and when the awaited
`storage.saveContact` rejects, filter it back out and rethrow.  Returns
the final in-memory list and whether the call completed without
rethrowing. -/
def ContactsService.add (list : List Contact) (d : NewContact)
    (freshId now : String) (storageAvailable saveOk : Bool) :
    List Contact × Bool :=
  let contact : Contact :=
    ⟨freshId, d.firstName, d.lastName, d.email, d.phone, d.notes, now, now⟩
  let optimistic := list ++ [contact]
  if storageAvailable then
    if saveOk then (optimistic, true)
    else (optimistic.filter (fun c => !(c.id == contact.id)), false)
  else (optimistic, true)

/-- An occasion (`src/unnamed/part_022`, interface `Occasion`). -/
structure Occasion where
  id : String
  contactId : String
  title : String
  type : String
  date : String
  year : Option Int
  repeatAnnually : Bool
  reminderDaysBefore : Option Int
  reminderEnabled : Bool
  notes : Option String
  createdAt : Option String
  updatedAt : Option String
deriving DecidableEq, Repr

/-- Occasion form data (`NewOccasion`, without id and timestamps). -/
structure NewOccasion where
  contactId : String
  title : String
  type : String
  date : String
  year : Option Int
  repeatAnnually : Bool
  reminderDaysBefore : Option Int
  reminderEnabled : Bool
  notes : Option String
deriving DecidableEq, Repr

/-- `OccasionsService.add(occasionData)`: same optimistic-append /
rollback-on-rejection shape as `ContactsService.add`. -/
def OccasionsService.add (list : List Occasion) (d : NewOccasion)
    (freshId now : String) (storageAvailable saveOk : Bool) :
    List Occasion × Bool :=
  let occasion : Occasion :=
    ⟨freshId, d.contactId, d.title, d.type, d.date, d.year,
      d.repeatAnnually, d.reminderDaysBefore, d.reminderEnabled, d.notes,
      some now, some now⟩
  let optimistic := list ++ [occasion]
  if storageAvailable then
    if saveOk then (optimistic, true)
    else (optimistic.filter (fun o => !(o.id == occasion.id)), false)
  else (optimistic, true)

/-! ### The remote store adapter's shape translations

`src/src/app/services/supabase.service.ts` contains two revisions of the
adapter, concatenated: the sync-era revision (`toSupabaseEvent` at lines
521–556, `fromSupabaseEvent` at 561–579, contact and occasion mappings at
584–656) and a later cloud-only revision (`toSupabaseEvent` at lines
1545–1580, `fromSupabaseEvent` at 1585–1599).  Both are embedded; the
later revision's functions carry a `V2` suffix.

`DateInput` values for `start`/`end` are modelled in their string form
(the `typeof === 'string'` branch); the `Date` branch reformats only
`start`/`end` and touches none of `id`/`createdAt`/`updatedAt`. -/

/-- A local calendar event (`src/unnamed/part_023`, interface
`CalendarEvent extends EventInput`; `title`, `start`, `end`, `allDay`
come from `EventInput`).  The source field `end` is a Lean keyword and is
embedded as `endTime`. -/
structure CalendarEvent where
  id : String
  title : Option String
  description : Option String
  start : Option String
  endTime : Option String
  allDay : Option Bool
  repeatAnnually : Option Bool
  eventType : Option String
  category : Option String
  color : Option String
  notes : Option String
  reminderDaysBefore : Option (List Int)
  reminderEnabled : Option Bool
  createdAt : Option String
  updatedAt : Option String
deriving DecidableEq, Repr

/-- A remote events row (interface `SupabaseEvent`; the source field
`end` is embedded as `endTime`). -/
structure SupabaseEvent where
  id : String
  user_id : String
  title : String
  description : Option String
  start : String
  endTime : Option String
  all_day : Bool
  repeat_annually : Bool
  event_type : Option String
  category : Option String
  color : Option String
  notes : Option String
  reminder_days_before : Option (List Int)
  reminder_enabled : Bool
  created_at : String
  updated_at : String
deriving DecidableEq, Repr

/-- The `startStr` computation of `toSupabaseEvent` in its string branch:
`String(event.start ?? '')` when absent, the string itself otherwise. -/
def eventStartStr (e : CalendarEvent) : String := e.start.getD ""

/-- The `endStr` computation of `toSupabaseEvent`: a falsy `end`
(absent or empty string) becomes `undefined`. -/
def eventEndStr (e : CalendarEvent) : Option String :=
  match e.endTime with
  | some s => if s = "" then none else some s
  | none => none

/-- Sync-era `SupabaseService.toSupabaseEvent(event, userId)`
(lines 521–556); `now` is the `new Date().toISOString()` default used
for missing timestamps. -/
def SupabaseService.toSupabaseEvent (e : CalendarEvent)
    (userId now : String) : SupabaseEvent :=
  { id := e.id
    user_id := userId
    title := e.title.getD ""
    description := e.description
    start := eventStartStr e
    endTime := eventEndStr e
    all_day := e.allDay.getD true
    repeat_annually := e.repeatAnnually.getD false
    event_type := e.eventType
    category := e.category
    color := e.color
    notes := e.notes
    reminder_days_before := e.reminderDaysBefore
    reminder_enabled := e.reminderEnabled.getD false
    created_at := e.createdAt.getD now
    updated_at := e.updatedAt.getD now }

/-- Sync-era `SupabaseService.fromSupabaseEvent(event)` (lines 561–579). -/
def SupabaseService.fromSupabaseEvent (r : SupabaseEvent) : CalendarEvent :=
  { id := r.id
    title := some r.title
    description := r.description
    start := some r.start
    endTime := r.endTime
    allDay := some r.all_day
    repeatAnnually := some r.repeat_annually
    eventType := r.event_type
    category := r.category
    color := r.color
    notes := r.notes
    reminderDaysBefore := r.reminder_days_before
    reminderEnabled := some r.reminder_enabled
    createdAt := some r.created_at
    updatedAt := some r.updated_at }

/-- Cloud-only revision `SupabaseService.toSupabaseEvent(event, userId)`
(lines 1545–1580): `event_type` and `notes` are dropped and both
`created_at` and `updated_at` are set to the current time `now`,
discarding the entity's own timestamps. -/
def SupabaseService.toSupabaseEventV2 (e : CalendarEvent)
    (userId now : String) : SupabaseEvent :=
  { id := e.id
    user_id := userId
    title := e.title.getD ""
    description := e.description
    start := eventStartStr e
    endTime := eventEndStr e
    all_day := e.allDay.getD true
    repeat_annually := e.repeatAnnually.getD false
    event_type := none
    category := e.category
    color := e.color
    notes := none
    reminder_days_before := e.reminderDaysBefore
    reminder_enabled := e.reminderEnabled.getD false
    created_at := now
    updated_at := now }

/-- Cloud-only revision `SupabaseService.fromSupabaseEvent(event)`
(lines 1585–1599): the row's `created_at`/`updated_at` (and
`event_type`, `notes`) are not copied back, so the resulting local
entity has no timestamps at all. -/
def SupabaseService.fromSupabaseEventV2 (r : SupabaseEvent) :
    CalendarEvent :=
  { id := r.id
    title := some r.title
    description := r.description
    start := some r.start
    endTime := r.endTime
    allDay := some r.all_day
    repeatAnnually := some r.repeat_annually
    eventType := none
    category := r.category
    color := r.color
    notes := none
    reminderDaysBefore := r.reminder_days_before
    reminderEnabled := some r.reminder_enabled
    createdAt := none
    updatedAt := none }

/-- A remote contacts row (interface `SupabaseContact`, identical in both
revisions). -/
structure SupabaseContact where
  id : String
  user_id : String
  first_name : String
  last_name : String
  email : Option String
  phone : Option String
  notes : Option String
  created_at : String
  updated_at : String
deriving DecidableEq, Repr

/-- `SupabaseService.toSupabaseContact(contact, userId)` (lines 584–596;
the later revision adds `?? now` defaults that cannot fire because
`Contact.createdAt`/`updatedAt` are required fields). -/
def SupabaseService.toSupabaseContact (c : Contact) (userId : String) :
    SupabaseContact :=
  { id := c.id
    user_id := userId
    first_name := c.firstName
    last_name := c.lastName
    email := c.email
    phone := c.phone
    notes := c.notes
    created_at := c.createdAt
    updated_at := c.updatedAt }

/-- `SupabaseService.fromSupabaseContact(contact)` (lines 601–612,
identical in both revisions). -/
def SupabaseService.fromSupabaseContact (r : SupabaseContact) : Contact :=
  { id := r.id
    firstName := r.first_name
    lastName := r.last_name
    email := r.email
    phone := r.phone
    notes := r.notes
    createdAt := r.created_at
    updatedAt := r.updated_at }

/-- A remote occasions row (interface `SupabaseOccasion`); `created_at`
and `updated_at` are `Option` because the sync-era mapping forwards the
occasion's optional timestamps verbatim. -/
structure SupabaseOccasion where
  id : String
  user_id : String
  contact_id : String
  title : String
  type : String
  date : String
  year : Option Int
  repeat_annually : Bool
  reminder_days_before : Option Int
  reminder_enabled : Bool
  notes : Option String
  created_at : Option String
  updated_at : Option String
deriving DecidableEq, Repr

/-- Sync-era `SupabaseService.toSupabaseOccasion(occasion, userId)`
(lines 617–636). -/
def SupabaseService.toSupabaseOccasion (o : Occasion) (userId : String) :
    SupabaseOccasion :=
  { id := o.id
    user_id := userId
    contact_id := o.contactId
    title := o.title
    type := o.type
    date := o.date
    year := o.year
    repeat_annually := o.repeatAnnually
    reminder_days_before := o.reminderDaysBefore
    reminder_enabled := o.reminderEnabled
    notes := o.notes
    created_at := o.createdAt
    updated_at := o.updatedAt }

/-- Sync-era `SupabaseService.fromSupabaseOccasion(occasion)`
(lines 641–656). -/
def SupabaseService.fromSupabaseOccasion (r : SupabaseOccasion) :
    Occasion :=
  { id := r.id
    contactId := r.contact_id
    title := r.title
    type := r.type
    date := r.date
    year := r.year
    repeatAnnually := r.repeat_annually
    reminderDaysBefore := r.reminder_days_before
    reminderEnabled := r.reminder_enabled
    notes := r.notes
    createdAt := r.created_at
    updatedAt := r.updated_at }

/-! ## Lemmas about the merge resolver -/

/-- Replacing an entry by a value with the same id does not change ids. -/
theorem replace_id (e x : SyncEntity) :
    (if x.id == e.id then e else x).id = x.id := by
  by_cases h : x.id = e.id
  · have hb : (x.id == e.id) = true := by simp [h]
    rw [if_pos hb]
    exact h.symm
  · have hb : ¬((x.id == e.id) = true) := by simpa [beq_iff_eq] using h
    rw [if_neg hb]

/-- The id list is untouched by an in-place replacement. -/
theorem keys_replace (m : List SyncEntity) (e : SyncEntity) :
    keys (m.map (fun x => if x.id == e.id then e else x)) = keys m := by
  simp only [keys, List.map_map]
  exact List.map_congr_left (fun x _ => replace_id e x)

/-- Membership of an id, phrased through `List.any`. -/
theorem any_id_iff (m : List SyncEntity) (i : String) :
    (m.any (fun x => x.id == i)) = true ↔ i ∈ keys m := by
  rw [List.any_eq_true]
  constructor
  · rintro ⟨x, hx, hxe⟩
    exact List.mem_map.mpr ⟨x, hx, beq_iff_eq.mp hxe⟩
  · intro hm
    rcases List.mem_map.mp hm with ⟨x, hx, rfl⟩
    exact ⟨x, hx, by simp⟩

/-- `NodupKeys` on a cons cell. -/
theorem nodupKeys_cons {x : SyncEntity} {M : List SyncEntity} :
    NodupKeys (x :: M) ↔ x.id ∉ keys M ∧ NodupKeys M := by
  simp [NodupKeys, keys]

/-- `mapSet` preserves the map invariant. -/
theorem mapSet_nodupKeys {m : List SyncEntity} (h : NodupKeys m)
    (e : SyncEntity) : NodupKeys (mapSet m e) := by
  unfold mapSet
  split
  · unfold NodupKeys
    rw [keys_replace]
    exact h
  · next hany =>
    have hni : e.id ∉ keys m := fun hmem =>
      hany ((any_id_iff m e.id).mpr hmem)
    unfold NodupKeys at h ⊢
    simp only [keys, List.map_append, List.map_cons, List.map_nil]
    simp only [List.nodup_append]
    refine ⟨h, List.nodup_singleton _, ?_⟩
    intro i hi hie
    rcases List.mem_singleton.mp hie with rfl
    exact hni hi

/-- `mergeRemote` preserves the map invariant. -/
theorem mergeRemote_nodupKeys {m : List SyncEntity} (h : NodupKeys m)
    (r : SyncEntity) : NodupKeys (mergeRemote m r) := by
  unfold mergeRemote
  split
  · next hf =>
    have hni : r.id ∉ keys m := by
      intro hmem
      rcases List.mem_map.mp hmem with ⟨x, hx, hxe⟩
      have := List.find?_eq_none.mp hf x hx
      simp [hxe] at this
    unfold NodupKeys at h ⊢
    simp only [keys, List.map_append, List.map_cons, List.map_nil]
    simp only [List.nodup_append]
    refine ⟨h, List.nodup_singleton _, ?_⟩
    intro i hi hie
    rcases List.mem_singleton.mp hie with rfl
    exact hni hi
  · next l hf =>
    split
    · unfold NodupKeys
      rw [keys_replace]
      exact h
    · exact h

/-- Folding `mapSet` over a list whose keys extend the accumulator
without duplication just appends the list. -/
theorem foldl_mapSet_of_nodup (M : List SyncEntity) :
    ∀ acc : List SyncEntity, NodupKeys (acc ++ M) →
      M.foldl mapSet acc = acc ++ M := by
  induction M with
  | nil => intro acc _; simp
  | cons m M ih =>
    intro acc h
    have hni : m.id ∉ keys acc := by
      intro hmem
      have : ¬ (keys (acc ++ m :: M)).Nodup := by
        simp only [keys, List.map_append, List.map_cons]
        intro hnd
        rcases List.nodup_append.mp hnd with ⟨_, _, hdisj⟩
        exact hdisj hmem (List.mem_cons_self _ _)
      exact this h
    have hset : mapSet acc m = acc ++ [m] := by
      unfold mapSet
      rw [if_neg]
      intro hany
      exact hni ((any_id_iff acc m.id).mp hany)
    have h' : NodupKeys ((acc ++ [m]) ++ M) := by
      rw [← List.append_cons]
      exact h
    calc (m :: M).foldl mapSet acc = M.foldl mapSet (acc ++ [m]) := by
          rw [List.foldl_cons, hset]
      _ = (acc ++ [m]) ++ M := ih (acc ++ [m]) h'
      _ = acc ++ m :: M := by rw [← List.append_cons]

/-- Seeding the merge map with a duplicate-free local list reproduces
the list. -/
theorem seed_eq {L : List SyncEntity} (h : NodupKeys L) :
    L.foldl mapSet [] = L :=
  foldl_mapSet_of_nodup L [] (by simpa using h)

/-- The seeded merge map always satisfies the map invariant. -/
theorem seed_nodupKeys (L : List SyncEntity) :
    NodupKeys (L.foldl mapSet []) := by
  have general : ∀ acc : List SyncEntity, NodupKeys acc →
      NodupKeys (L.foldl mapSet acc) := by
    induction L with
    | nil => intro acc h; exact h
    | cons e L ih =>
      intro acc h
      exact ih (mapSet acc e) (mapSet_nodupKeys h e)
  exact general [] (by simp [NodupKeys, keys])

/-- Folding `mergeRemote` preserves the map invariant. -/
theorem foldl_mergeRemote_nodupKeys (R : List SyncEntity) :
    ∀ {M : List SyncEntity}, NodupKeys M →
      NodupKeys (R.foldl mergeRemote M) := by
  induction R with
  | nil => intro M h; exact h
  | cons r R ih =>
    intro M h
    exact ih (mergeRemote_nodupKeys h r)

/-- `mergeData` always returns a duplicate-free list. -/
theorem mergeData_nodupKeys (L R : List SyncEntity) :
    NodupKeys (SyncService.mergeData L R) :=
  foldl_mergeRemote_nodupKeys R (seed_nodupKeys L)

/-- `find?` ignores a right extension once it has produced a hit. -/
theorem find?_append_some {m₁ m₂ : List SyncEntity} {p : SyncEntity → Bool}
    {a : SyncEntity} (h : m₁.find? p = some a) :
    (m₁ ++ m₂).find? p = some a := by
  induction m₁ with
  | nil => simp at h
  | cons x m₁ ih =>
    by_cases hp : p x
    · rw [List.find?_cons_of_pos _ hp] at h
      rw [List.cons_append, List.find?_cons_of_pos _ hp]
      exact h
    · rw [List.find?_cons_of_neg _ hp] at h
      rw [List.cons_append, List.find?_cons_of_neg _ hp]
      exact ih h

/-- An in-place replacement at one id does not change `find?` at a
different id. -/
theorem find?_replace_ne (M : List SyncEntity) (r : SyncEntity)
    {i : String} (hne : r.id ≠ i) :
    (M.map (fun x => if x.id == r.id then r else x)).find?
        (fun x => x.id == i)
      = M.find? (fun x => x.id == i) := by
  induction M with
  | nil => rfl
  | cons x M ih =>
    by_cases hx : x.id = i
    · have hxr : (if x.id == r.id then r else x) = x := by
        rw [if_neg]
        intro hb
        exact hne (hx ▸ (beq_iff_eq.mp hb).symm)
      rw [List.map_cons, hxr,
        List.find?_cons_of_pos _ (by simp [hx]),
        List.find?_cons_of_pos _ (by simp [hx])]
    · have hpr : ¬ (((if x.id == r.id then r else x).id == i) = true) := by
        rw [replace_id]
        simpa [beq_iff_eq] using hx
      rw [List.map_cons,
        List.find?_cons_of_neg (p := fun (y : SyncEntity) => y.id == i) _ hpr,
        List.find?_cons_of_neg (p := fun (y : SyncEntity) => y.id == i) _
          (by simpa [beq_iff_eq] using hx)]
      exact ih

/-- After an in-place replacement at an id that is present, `find?` at
that id returns the replacement. -/
theorem find?_replace_self (M : List SyncEntity) (r : SyncEntity)
    {m : SyncEntity}
    (hf : M.find? (fun x => x.id == r.id) = some m) :
    (M.map (fun x => if x.id == r.id then r else x)).find?
        (fun x => x.id == r.id)
      = some r := by
  induction M with
  | nil => simp at hf
  | cons x M ih =>
    by_cases hx : x.id = r.id
    · have hxr : (if x.id == r.id then r else x) = r := by
        rw [if_pos (by simp [hx])]
      rw [List.map_cons, hxr, List.find?_cons_of_pos _ (by simp)]
    · have hneg : ¬ ((x.id == r.id) = true) := by
        simpa [beq_iff_eq] using hx
      rw [List.find?_cons_of_neg (p := fun (y : SyncEntity) => y.id == r.id) _ hneg] at hf
      have hpr : ¬ (((if x.id == r.id then r else x).id == r.id) = true) := by
        rw [replace_id]
        exact hneg
      rw [List.map_cons,
        List.find?_cons_of_neg (p := fun (y : SyncEntity) => y.id == r.id) _ hpr]
      exact ih hf

/-- Entries of a duplicate-free map with the same id are equal. -/
theorem nodupKeys_eq_of_mem {M : List SyncEntity} (h : NodupKeys M)
    {a b : SyncEntity} (ha : a ∈ M) (hb : b ∈ M) (hid : a.id = b.id) :
    a = b := by
  induction M with
  | nil => cases ha
  | cons x M ih =>
    rcases nodupKeys_cons.mp h with ⟨hx, hM⟩
    rcases List.mem_cons.mp ha with rfl | ha'
    · rcases List.mem_cons.mp hb with rfl | hb'
      · rfl
      · exact absurd (hid ▸ List.mem_map.mpr ⟨b, hb', rfl⟩) hx
    · rcases List.mem_cons.mp hb with rfl | hb'
      · exact absurd (hid ▸ List.mem_map.mpr ⟨a, ha', rfl⟩) hx
      · exact ih hM ha' hb'

/-- In a duplicate-free map, `find?` at the id of a member returns that
member. -/
theorem find?_of_mem_nodupKeys {M : List SyncEntity} (h : NodupKeys M)
    {m : SyncEntity} (hm : m ∈ M) :
    M.find? (fun x => x.id == m.id) = some m := by
  induction M with
  | nil => cases hm
  | cons x M ih =>
    rcases nodupKeys_cons.mp h with ⟨hx, hM⟩
    rcases List.mem_cons.mp hm with rfl | hm'
    · rw [List.find?_cons_of_pos _ (by simp)]
    · have hne : ¬ ((x.id == m.id) = true) := by
        intro hb
        exact hx ((beq_iff_eq.mp hb) ▸ List.mem_map.mpr ⟨m, hm', rfl⟩)
      rw [List.find?_cons_of_neg (p := fun (y : SyncEntity) => y.id == m.id) _ hne]
      exact ih hM hm'

/-- `nanGt` is irreflexive. -/
theorem nanGt_irrefl (a : Option Int) : nanGt a a = false := by
  cases a with
  | none => rfl
  | some v => simp [nanGt]

/-- NaN-transitivity: whatever does not beat `b` does not beat anything
that strictly beats `b`. -/
theorem nanGt_trans_absorb {a b c : Option Int}
    (h1 : nanGt a b = false) (h2 : nanGt c b = true) :
    nanGt a c = false := by
  cases c with
  | none => cases b <;> simp [nanGt] at h2
  | some cv =>
    cases b with
    | none => simp [nanGt] at h2
    | some bv =>
      cases a with
      | none => rfl
      | some av =>
        simp [nanGt] at h1 h2 ⊢
        omega

/-- `mergeRemote` at the id of the incoming remote item. -/
theorem mergeRemote_find_self {M : List SyncEntity} {m r : SyncEntity}
    (hf : M.find? (fun x => x.id == r.id) = some m) :
    (mergeRemote M r).find? (fun x => x.id == r.id)
      = some (if nanGt (entityTime r) (entityTime m) then r else m) := by
  unfold mergeRemote
  split
  · next hnone =>
    rw [hnone] at hf
    cases hf
  · next l hsome =>
    rw [hsome] at hf
    injection hf with hf
    subst hf
    by_cases hg : nanGt (entityTime r) (entityTime l) = true
    · rw [if_pos hg, if_pos hg]
      exact find?_replace_self M r hsome
    · rw [if_neg hg, if_neg hg]
      exact hsome

/-- `mergeRemote` leaves `find?` at every other id unchanged. -/
theorem mergeRemote_find_other (M : List SyncEntity) (r : SyncEntity)
    {i : String} (hne : r.id ≠ i) :
    (mergeRemote M r).find? (fun x => x.id == i)
      = M.find? (fun x => x.id == i) := by
  unfold mergeRemote
  split
  · next hf =>
    cases hfi : M.find? (fun x => x.id == i) with
    | some a => exact find?_append_some hfi
    | none =>
      rw [List.find?_eq_none] at hfi ⊢
      intro x hx
      rcases List.mem_append.mp hx with hx' | hx'
      · exact hfi x hx'
      · rcases List.mem_singleton.mp hx' with rfl
        simpa [beq_iff_eq] using hne
  · next l hf =>
    split
    · exact find?_replace_ne M r hne
    · rfl

/-- Folding remote items whose ids avoid `i` leaves `find?` at `i`
unchanged. -/
theorem foldl_mergeRemote_find_other (R : List SyncEntity) :
    ∀ (M : List SyncEntity) {i : String}, (∀ x ∈ R, x.id ≠ i) →
      (R.foldl mergeRemote M).find? (fun x => x.id == i)
        = M.find? (fun x => x.id == i) := by
  induction R with
  | nil => intro M i _; rfl
  | cons r R ih =>
    intro M i hR
    rw [List.foldl_cons,
      ih (mergeRemote M r) (fun x hx => hR x (List.mem_cons_of_mem r hx)),
      mergeRemote_find_other M r (hR r (List.mem_cons_self r R))]

/-- Pointwise characterization of `mergeData`: for duplicate-free inputs
and an id present on both sides, the merged entry is the remote copy
precisely when the JavaScript comparison `remoteTime > localTime` holds,
and the untouched local copy otherwise. -/
theorem mergeData_find_char {L R : List SyncEntity} {l r : SyncEntity}
    (hL : NodupKeys L) (hR : NodupKeys R)
    (hl : l ∈ L) (hr : r ∈ R) (hid : l.id = r.id) :
    (SyncService.mergeData L R).find? (fun x => x.id == l.id)
      = some (if nanGt (entityTime r) (entityTime l) then r else l) := by
  unfold SyncService.mergeData
  rw [seed_eq hL]
  rcases List.append_of_mem hr with ⟨R1, R2, rfl⟩
  have hkeys : (keys R1 ++ r.id :: keys R2).Nodup := by
    have := hR
    unfold NodupKeys keys at this
    simpa [keys] using this
  have hR1 : ∀ x ∈ R1, x.id ≠ r.id := by
    intro x hx he
    rcases List.nodup_append.mp hkeys with ⟨_, _, hdisj⟩
    exact hdisj (List.mem_map.mpr ⟨x, hx, he⟩) (List.mem_cons_self _ _)
  have hR2 : ∀ x ∈ R2, x.id ≠ r.id := by
    intro x hx he
    rcases List.nodup_append.mp hkeys with ⟨_, hcons, _⟩
    rcases List.nodup_cons.mp hcons with ⟨hni, _⟩
    exact hni (he ▸ List.mem_map.mpr ⟨x, hx, rfl⟩)
  have hfindL : L.find? (fun x => x.id == r.id) = some l := by
    have := find?_of_mem_nodupKeys hL hl
    rw [hid] at this
    exact this
  have hfind1 : (R1.foldl mergeRemote L).find? (fun x => x.id == r.id)
      = some l := by
    rw [foldl_mergeRemote_find_other R1 L hR1, hfindL]
  have hstep := mergeRemote_find_self hfind1
  rw [hid, List.foldl_append, List.foldl_cons,
    foldl_mergeRemote_find_other R2 _ hR2, hstep]

/-- A merge map absorbs a remote item when it already holds an entry for
the item's id that the item does not beat. -/
def Absorbs (M : List SyncEntity) (r : SyncEntity) : Prop :=
  ∃ m, m ∈ M ∧ m.id = r.id ∧ nanGt (entityTime r) (entityTime m) = false

/-- Every merge map absorbs a remote item right after processing it. -/
theorem mergeRemote_absorbs_self (M : List SyncEntity) (r : SyncEntity) :
    Absorbs (mergeRemote M r) r := by
  unfold mergeRemote
  split
  · exact ⟨r, List.mem_append.mpr (Or.inr (List.mem_singleton.mpr rfl)),
      rfl, nanGt_irrefl _⟩
  · next l hf =>
    split
    · next hg =>
      refine ⟨r, ?_, rfl, nanGt_irrefl _⟩
      have hl : l ∈ M := List.mem_of_find?_eq_some hf
      have hlid := List.find?_some hf
      refine List.mem_map.mpr ⟨l, hl, ?_⟩
      rw [if_pos hlid]
    · next hg =>
      have hlid := List.find?_some hf
      exact ⟨l, List.mem_of_find?_eq_some hf,
        beq_iff_eq.mp hlid,
        Bool.eq_false_iff.mpr hg⟩

/-- Absorption is preserved when the map processes a further remote
item (on duplicate-free maps). -/
theorem mergeRemote_absorbs_mono {M : List SyncEntity}
    (h : NodupKeys M) (q : SyncEntity) {r : SyncEntity}
    (ha : Absorbs M r) : Absorbs (mergeRemote M q) r := by
  rcases ha with ⟨m, hm, hmid, habs⟩
  unfold mergeRemote
  split
  · exact ⟨m, List.mem_append.mpr (Or.inl hm), hmid, habs⟩
  · next l hf =>
    split
    · next hg =>
      by_cases hq : m.id = q.id
      · have hlid := List.find?_some hf
        have hlm : l = m :=
          nodupKeys_eq_of_mem h (List.mem_of_find?_eq_some hf) hm
            ((beq_iff_eq.mp hlid).trans hq.symm)
        refine ⟨q, List.mem_map.mpr ⟨m, hm, by rw [if_pos (by simp [hq])]⟩,
          hq ▸ hmid, ?_⟩
        exact nanGt_trans_absorb habs (hlm ▸ hg)
      · refine ⟨m, List.mem_map.mpr ⟨m, hm, ?_⟩, hmid, habs⟩
        rw [if_neg (by simpa [beq_iff_eq] using hq)]
    · exact ⟨m, hm, hmid, habs⟩

/-- Absorption survives folding any further remote items. -/
theorem absorbs_foldl (R : List SyncEntity) :
    ∀ {M : List SyncEntity}, NodupKeys M → ∀ {r : SyncEntity},
      Absorbs M r → Absorbs (R.foldl mergeRemote M) r := by
  induction R with
  | nil => intro M _ r ha; exact ha
  | cons q R ih =>
    intro M h r ha
    exact ih (mergeRemote_nodupKeys h q) (mergeRemote_absorbs_mono h q ha)

/-- After folding a remote list into a duplicate-free map, the result
absorbs every item of that list. -/
theorem foldl_mergeRemote_absorbs (R : List SyncEntity) :
    ∀ {M : List SyncEntity}, NodupKeys M →
      ∀ r ∈ R, Absorbs (R.foldl mergeRemote M) r := by
  induction R with
  | nil => intro M _ r hr; cases hr
  | cons q R ih =>
    intro M h r hr
    rw [List.foldl_cons]
    rcases List.mem_cons.mp hr with rfl | hr'
    · exact absorbs_foldl R (mergeRemote_nodupKeys h r)
        (mergeRemote_absorbs_self M r)
    · exact ih (mergeRemote_nodupKeys h q) r hr'

/-- A map that absorbs a remote item is untouched by processing it. -/
theorem mergeRemote_eq_of_absorbs {M : List SyncEntity}
    (h : NodupKeys M) {r : SyncEntity} (ha : Absorbs M r) :
    mergeRemote M r = M := by
  rcases ha with ⟨m, hm, hmid, habs⟩
  have hf : M.find? (fun x => x.id == r.id) = some m := by
    have := find?_of_mem_nodupKeys h hm
    rw [hmid] at this
    exact this
  unfold mergeRemote
  split
  · next hnone =>
    rw [hnone] at hf
    cases hf
  · next l hsome =>
    rw [hsome] at hf
    injection hf with hf
    subst hf
    rw [if_neg]
    simp [habs]

/-- Folding a function over fixed points is the identity. -/
theorem foldl_fixed {α β : Type} {f : β → α → β} {b : β} {l : List α}
    (h : ∀ a ∈ l, f b a = b) : l.foldl f b = b := by
  induction l with
  | nil => rfl
  | cons a l ih =>
    rw [List.foldl_cons, h a (List.mem_cons_self a l)]
    exact ih (fun x hx => h x (List.mem_cons_of_mem a hx))

/-! ## Claim theorems -/

/-- C1: for every pair of duplicate-free entity lists and every id
present in both, `mergeData` keeps the remote copy exactly when the
remote `updatedAt` parses to a strictly greater instant than the local
`updatedAt`, and keeps the local copy otherwise — in particular the
local copy on exactly equal instants. -/
theorem SyncService.mergeData_last_write_wins
    (L R : List SyncEntity) (l r : SyncEntity)
    (hL : NodupKeys L) (hR : NodupKeys R)
    (hl : l ∈ L) (hr : r ∈ R) (hid : l.id = r.id)
    (tl tr : Int)
    (htl : entityTime l = some tl) (htr : entityTime r = some tr) :
    (SyncService.mergeData L R).find? (fun x => x.id == l.id)
      = some (if tl < tr then r else l) := by
  have h := mergeData_find_char hL hR hl hr hid
  rw [htl, htr] at h
  rw [h]
  congr 1
  by_cases hlt : tl < tr
  · rw [if_pos hlt, if_pos (by simp [nanGt, hlt])]
  · rw [if_neg hlt, if_neg (by simp [nanGt, hlt])]

/-- Witness for C1: a strictly newer remote copy wins, and on an exact
timestamp tie the local copy is kept. -/
theorem SyncService.mergeData_last_write_wins_witness :
    (SyncService.mergeData
        [⟨"a", some "2024-01-01T00:00:00Z", "local"⟩]
        [⟨"a", some "2024-01-02T00:00:00Z", "remote"⟩]).find?
        (fun x => x.id == "a")
      = some ⟨"a", some "2024-01-02T00:00:00Z", "remote"⟩
    ∧ (SyncService.mergeData
        [⟨"b", some "2024-01-02T00:00:00Z", "localTie"⟩]
        [⟨"b", some "2024-01-02T00:00:00Z", "remoteTie"⟩]).find?
        (fun x => x.id == "b")
      = some ⟨"b", some "2024-01-02T00:00:00Z", "localTie"⟩ := by
  constructor
  · have h := SyncService.mergeData_last_write_wins
      [⟨"a", some "2024-01-01T00:00:00Z", "local"⟩]
      [⟨"a", some "2024-01-02T00:00:00Z", "remote"⟩]
      ⟨"a", some "2024-01-01T00:00:00Z", "local"⟩
      ⟨"a", some "2024-01-02T00:00:00Z", "remote"⟩
      (by simp [NodupKeys, keys]) (by simp [NodupKeys, keys])
      (by simp) (by simp) rfl
      1704067200000 1704153600000 (by decide) (by decide)
    simpa using h
  · have h := SyncService.mergeData_last_write_wins
      [⟨"b", some "2024-01-02T00:00:00Z", "localTie"⟩]
      [⟨"b", some "2024-01-02T00:00:00Z", "remoteTie"⟩]
      ⟨"b", some "2024-01-02T00:00:00Z", "localTie"⟩
      ⟨"b", some "2024-01-02T00:00:00Z", "remoteTie"⟩
      (by simp [NodupKeys, keys]) (by simp [NodupKeys, keys])
      (by simp) (by simp) rfl
      1704153600000 1704153600000 (by decide) (by decide)
    simpa using h

/-- C2: `mergeData` is a pure function (it is a Lean function of its two
list arguments alone) and idempotent: merging the merged result with the
same remote list again returns the same list. -/
theorem SyncService.mergeData_idempotent (L R : List SyncEntity) :
    SyncService.mergeData (SyncService.mergeData L R) R
      = SyncService.mergeData L R := by
  have hM : NodupKeys (SyncService.mergeData L R) := mergeData_nodupKeys L R
  have h1 : (SyncService.mergeData L R).foldl mapSet []
      = SyncService.mergeData L R := seed_eq hM
  have habs : ∀ r ∈ R, Absorbs (SyncService.mergeData L R) r :=
    fun r hr => foldl_mergeRemote_absorbs R (seed_nodupKeys L) r hr
  calc SyncService.mergeData (SyncService.mergeData L R) R
      = R.foldl mergeRemote
          ((SyncService.mergeData L R).foldl mapSet []) := rfl
    _ = R.foldl mergeRemote (SyncService.mergeData L R) := by rw [h1]
    _ = SyncService.mergeData L R :=
        foldl_fixed (fun r hr => mergeRemote_eq_of_absorbs hM (habs r hr))

/-- C7 counterexample: the claim says a side with unparseable
`updatedAt` is treated as epoch-zero and always loses, but when the
LOCAL side's `updatedAt` is unparseable its `getTime()` is NaN, every
comparison with NaN is false, and the local copy is retained — the
unparseable side wins against a parseable remote. -/
theorem mergeData_epoch_zero_counterexample :
    jsGetTime (some "not-a-date") = none
    ∧ jsGetTime (some "2024-01-02T00:00:00Z") = some 1704153600000
    ∧ SyncService.mergeData
        [⟨"a", some "not-a-date", "local"⟩]
        [⟨"a", some "2024-01-02T00:00:00Z", "remote"⟩]
      = [⟨"a", some "not-a-date", "local"⟩] :=
  ⟨by decide, by decide, by decide⟩

/-- C7 (amended): a missing or empty `updatedAt` is parsed as the epoch
instant and loses to any strictly positive parseable remote timestamp; a
remote side with missing or unparseable `updatedAt` never overwrites a
local side whose timestamp parses to a nonnegative instant; but a LOCAL
side whose `updatedAt` is unparseable (NaN) always wins — the local copy
is retained even against a parseable remote. -/
theorem mergeData_epoch_zero_amended
    (L R : List SyncEntity) (l r : SyncEntity)
    (hL : NodupKeys L) (hR : NodupKeys R)
    (hl : l ∈ L) (hr : r ∈ R) (hid : l.id = r.id) :
    (∀ e : SyncEntity, (e.updatedAt = none ∨ e.updatedAt = some "") →
      entityTime e = some 0)
    ∧ (entityTime l = some 0 → ∀ tr, entityTime r = some tr → 0 < tr →
        (SyncService.mergeData L R).find? (fun x => x.id == l.id)
          = some r)
    ∧ ((entityTime r = some 0 ∨ entityTime r = none) →
        ∀ tl, entityTime l = some tl → 0 ≤ tl →
        (SyncService.mergeData L R).find? (fun x => x.id == l.id)
          = some l)
    ∧ (entityTime l = none →
        (SyncService.mergeData L R).find? (fun x => x.id == l.id)
          = some l) := by
  have char := mergeData_find_char hL hR hl hr hid
  refine ⟨?_, ?_, ?_, ?_⟩
  · intro e he
    rcases he with h | h <;> simp [entityTime, jsGetTime, h]
  · intro h0 tr htr hpos
    rw [h0, htr] at char
    simpa [nanGt, hpos] using char
  · intro hrz tl htl hnn
    rcases hrz with h | h
    · rw [h, htl] at char
      have hneg : ¬ (tl < 0) := by omega
      simpa [nanGt, hneg] using char
    · rw [h, htl] at char
      simpa [nanGt] using char
  · intro hnone
    rw [hnone] at char
    cases htr' : entityTime r with
    | none =>
      rw [htr'] at char
      simpa [nanGt] using char
    | some v =>
      rw [htr'] at char
      simpa [nanGt] using char

/-- Witness for C7 (amended): a local copy with a missing `updatedAt`
(epoch-zero) is overwritten by a remote copy with a 2024 timestamp. -/
theorem mergeData_epoch_zero_amended_witness :
    (SyncService.mergeData
        [⟨"a", none, "local"⟩]
        [⟨"a", some "2024-01-02T00:00:00Z", "remote"⟩]).find?
        (fun x => x.id == "a")
      = some ⟨"a", some "2024-01-02T00:00:00Z", "remote"⟩ := by
  have h := mergeData_epoch_zero_amended
    [⟨"a", none, "local"⟩]
    [⟨"a", some "2024-01-02T00:00:00Z", "remote"⟩]
    ⟨"a", none, "local"⟩
    ⟨"a", some "2024-01-02T00:00:00Z", "remote"⟩
    (by simp [NodupKeys, keys]) (by simp [NodupKeys, keys])
    (by simp) (by simp) rfl
  exact h.2.1 (by decide) 1704153600000 (by decide) (by norm_num)

/-! ## Lemmas about the pending-operation queue -/

/-- After `addPendingOperation`, the entries for the targeted
`(type, entityId)` pair are exactly the freshly appended operation. -/
theorem filter_pair_addPendingOperation (q : List PendingOperation)
    (k : EntityKind) (a : OpAction) (eid freshId ts : String) :
    (SyncService.addPendingOperation q k a eid freshId ts).filter
        (fun op => op.type == k && op.entityId == eid)
      = [⟨freshId, k, a, eid, ts⟩] := by
  unfold SyncService.addPendingOperation
  rw [List.filter_append]
  have h1 : (q.filter
      (fun op => !(op.type == k && op.entityId == eid))).filter
        (fun op => op.type == k && op.entityId == eid) = [] := by
    rw [List.filter_filter]
    apply List.filter_eq_nil_iff.mpr
    intro op _
    cases hop : (op.type == k && op.entityId == eid) <;> simp [hop]
  rw [h1]
  simp

/-- One `addPendingOperation` call keeps the per-pair occupancy at most
one. -/
theorem addPendingOperation_pair_le_one (q : List PendingOperation)
    (h : ∀ (k : EntityKind) (eid : String),
      (q.filter (fun op => op.type == k && op.entityId == eid)).length ≤ 1)
    (r : AddRequest) (k : EntityKind) (eid : String) :
    ((SyncService.addPendingOperation q r.type r.action r.entityId
        r.freshId r.ts).filter
        (fun op => op.type == k && op.entityId == eid)).length ≤ 1 := by
  by_cases hp : r.type = k ∧ r.entityId = eid
  · rcases hp with ⟨rfl, rfl⟩
    rw [filter_pair_addPendingOperation]
    simp
  · unfold SyncService.addPendingOperation
    rw [List.filter_append]
    have hnew : (List.filter
        (fun (op : PendingOperation) => op.type == k && op.entityId == eid)
        [⟨r.freshId, r.type, r.action, r.entityId, r.ts⟩]) = [] := by
      simp only [List.filter, List.filter_nil]
      have : ((⟨r.freshId, r.type, r.action, r.entityId, r.ts⟩ :
          PendingOperation).type == k
          && (⟨r.freshId, r.type, r.action, r.entityId, r.ts⟩ :
          PendingOperation).entityId == eid) = false := by
        by_cases h1 : r.type = k
        · have h2 : r.entityId ≠ eid := fun h2 => hp ⟨h1, h2⟩
          simp [beq_iff_eq, h2]
        · simp [beq_iff_eq, h1]
      rw [this]
    rw [hnew, List.append_nil]
    calc ((q.filter
        (fun op => !(op.type == r.type && op.entityId == r.entityId))).filter
          (fun op => op.type == k && op.entityId == eid)).length
        ≤ (q.filter (fun op => op.type == k && op.entityId == eid)).length :=
          List.Sublist.length_le
            (List.Sublist.filter _ (List.filter_sublist q))
      _ ≤ 1 := h k eid

/-- Every queue reachable from the empty queue by `addPendingOperation`
calls holds at most one entry per `(type, entityId)` pair. -/
theorem runAdds_pair_le_one (reqs : List AddRequest) :
    ∀ (k : EntityKind) (eid : String),
      ((runAdds reqs).filter
        (fun op => op.type == k && op.entityId == eid)).length ≤ 1 := by
  have general : ∀ (reqs : List AddRequest) (q : List PendingOperation),
      (∀ (k : EntityKind) (eid : String),
        (q.filter
          (fun op => op.type == k && op.entityId == eid)).length ≤ 1) →
      ∀ (k : EntityKind) (eid : String),
        ((reqs.foldl
          (fun acc r =>
            SyncService.addPendingOperation acc r.type r.action r.entityId
              r.freshId r.ts) q).filter
          (fun op => op.type == k && op.entityId == eid)).length ≤ 1 := by
    intro reqs
    induction reqs with
    | nil => intro q h k eid; exact h k eid
    | cons r reqs ih =>
      intro q h k eid
      exact ih _ (fun k' eid' => addPendingOperation_pair_le_one q h r k' eid')
        k eid
  exact general reqs [] (by simp)

/-- C5: after any sequence of `addPendingOperation` calls the queue has
at most one entry per `(entityKind, entityId)` pair; enqueuing for an
already-queued pair leaves the fresh operation as the pair's only entry;
in particular two upserts for `"e1"` followed by a delete leave exactly
one entry for `"e1"`, with action `delete`. -/
theorem SyncService.addPendingOperation_dedup :
    (∀ (reqs : List AddRequest) (k : EntityKind) (eid : String),
      ((runAdds reqs).filter
        (fun op => op.type == k && op.entityId == eid)).length ≤ 1)
    ∧ (∀ (q : List PendingOperation) (k : EntityKind) (a : OpAction)
        (eid freshId ts : String),
        (SyncService.addPendingOperation q k a eid freshId ts).filter
          (fun op => op.type == k && op.entityId == eid)
          = [⟨freshId, k, a, eid, ts⟩])
    ∧ runAdds
        [⟨EntityKind.events, OpAction.upsert, "e1", "op1", "t1"⟩,
         ⟨EntityKind.events, OpAction.upsert, "e1", "op2", "t2"⟩,
         ⟨EntityKind.events, OpAction.delete, "e1", "op3", "t3"⟩]
      = [⟨"op3", EntityKind.events, OpAction.delete, "e1", "t3"⟩] :=
  ⟨runAdds_pair_le_one,
   fun q k a eid freshId ts => filter_pair_addPendingOperation q k a eid
     freshId ts,
   by decide⟩

/-- C10: replacing a queued entry is not in place — the old entry is
removed from its position and the fresh operation (with the freshly
generated id and the new timestamp) is appended at the tail of the
queue, which `processPendingOperations` replays in order. -/
theorem SyncService.addPendingOperation_replaces_at_tail
    (q : List PendingOperation) (k : EntityKind) (a : OpAction)
    (eid freshId ts : String) (old : PendingOperation)
    (hold : old ∈ q) (holdk : old.type = k) (holde : old.entityId = eid)
    (hfresh : ∀ op ∈ q, op.id ≠ freshId) :
    old ∉ SyncService.addPendingOperation q k a eid freshId ts
    ∧ (SyncService.addPendingOperation q k a eid freshId ts).getLast?
        = some ⟨freshId, k, a, eid, ts⟩
    ∧ (SyncService.addPendingOperation q k a eid freshId ts).filter
        (fun op => op.type == k && op.entityId == eid)
        = [⟨freshId, k, a, eid, ts⟩] := by
  refine ⟨?_, ?_, filter_pair_addPendingOperation q k a eid freshId ts⟩
  · intro hmem
    unfold SyncService.addPendingOperation at hmem
    rcases List.mem_append.mp hmem with hmem' | hmem'
    · have hp := List.of_mem_filter hmem'
      simp [beq_iff_eq, holdk, holde] at hp
    · rcases List.mem_singleton.mp hmem' with rfl
      exact hfresh _ hold rfl
  · unfold SyncService.addPendingOperation
    exact List.getLast?_concat _

/-- Witness for C10: the old head entry for `(events, "e1")` is gone and
the replacement sits at the tail, after the unrelated entry. -/
theorem SyncService.addPendingOperation_replaces_at_tail_witness :
    (⟨"op1", EntityKind.events, OpAction.upsert, "e1", "t1"⟩ :
        PendingOperation) ∉
      SyncService.addPendingOperation
        [⟨"op1", EntityKind.events, OpAction.upsert, "e1", "t1"⟩,
         ⟨"op2", EntityKind.contacts, OpAction.upsert, "c1", "t1"⟩]
        EntityKind.events OpAction.delete "e1" "op3" "t3"
    ∧ (SyncService.addPendingOperation
        [⟨"op1", EntityKind.events, OpAction.upsert, "e1", "t1"⟩,
         ⟨"op2", EntityKind.contacts, OpAction.upsert, "c1", "t1"⟩]
        EntityKind.events OpAction.delete "e1" "op3" "t3").getLast?
      = some ⟨"op3", EntityKind.events, OpAction.delete, "e1", "t3"⟩ := by
  have h := SyncService.addPendingOperation_replaces_at_tail
    [⟨"op1", EntityKind.events, OpAction.upsert, "e1", "t1"⟩,
     ⟨"op2", EntityKind.contacts, OpAction.upsert, "c1", "t1"⟩]
    EntityKind.events OpAction.delete "e1" "op3" "t3"
    ⟨"op1", EntityKind.events, OpAction.upsert, "e1", "t1"⟩
    (by decide) rfl rfl (by decide)
  exact ⟨h.1, h.2.1⟩

/-- Membership after the flush loop: an entry of the live queue survives
precisely when no processed snapshot entry with its id replayed
successfully. -/
theorem mem_flush_foldl (env : FlushEnv) (P : List PendingOperation) :
    ∀ (acc : List PendingOperation) (op : PendingOperation),
      op ∈ P.foldl
          (fun acc op =>
            if opSucceeds env op then
              acc.filter (fun p => !(p.id == op.id))
            else acc) acc
        ↔ op ∈ acc
          ∧ ∀ op' ∈ P, opSucceeds env op' = true → op.id ≠ op'.id := by
  induction P with
  | nil => intro acc op; simp
  | cons q P ih =>
    intro acc op
    rw [List.foldl_cons]
    by_cases hs : opSucceeds env q = true
    · rw [if_pos hs, ih]
      constructor
      · rintro ⟨hmem, hrest⟩
        have hmf := List.mem_filter.mp hmem
        refine ⟨hmf.1, ?_⟩
        intro op' hop' hs'
        rcases List.mem_cons.mp hop' with rfl | hop''
        · simpa [beq_iff_eq] using hmf.2
        · exact hrest op' hop'' hs'
      · rintro ⟨hmem, hall⟩
        refine ⟨List.mem_filter.mpr ⟨hmem, ?_⟩, ?_⟩
        · simpa [beq_iff_eq] using hall q (List.mem_cons_self q P) hs
        · intro op' hop' hs'
          exact hall op' (List.mem_cons_of_mem q hop') hs'
    · rw [if_neg hs, ih]
      constructor
      · rintro ⟨hmem, hrest⟩
        refine ⟨hmem, ?_⟩
        intro op' hop' hs'
        rcases List.mem_cons.mp hop' with rfl | hop''
        · exact absurd hs' hs
        · exact hrest op' hop'' hs'
      · rintro ⟨hmem, hall⟩
        exact ⟨hmem, fun op' hop' hs' =>
          hall op' (List.mem_cons_of_mem q hop') hs'⟩

/-- C6: during a flush, a queued entry is removed exactly when its
replay reports success — a failed or throwing replay leaves it queued —
and a queued upsert whose entity no longer exists locally counts as
success with no remote call issued. -/
theorem SyncService.processPendingOperations_removal
    (env : FlushEnv) (q : List PendingOperation)
    (hnodup : (q.map (fun op => op.id)).Nodup)
    (op : PendingOperation) (hop : op ∈ q) :
    (op ∉ SyncService.processPendingOperations env q
      ↔ opSucceeds env op = true)
    ∧ (op.action = OpAction.upsert →
        env.lookup op.type op.entityId = none →
        opSucceeds env op = true ∧ opMakesRemoteCall env op = false) := by
  constructor
  · rw [SyncService.processPendingOperations, mem_flush_foldl env q q op]
    constructor
    · intro hn
      by_contra hs
      apply hn
      refine ⟨hop, ?_⟩
      intro op' hop' hs' heq
      have heqop : op = op' :=
        List.inj_on_of_nodup_map hnodup hop hop' heq
      rw [heqop] at hs
      exact hs hs'
    · rintro hs ⟨_, hall⟩
      exact hall op hop hs rfl
  · intro hup hlook
    constructor
    · simp [opSucceeds, processOp, hup, hlook]
    · simp [opMakesRemoteCall, hup, hlook]

/-- Witness for C6: in the concrete flush, the failed delete (entry 2)
and the throwing delete (entry 3) stay queued, the successful delete
(entry 1) is removed, and the vacuous upsert (entry 4) is a success
without a remote call. -/
theorem SyncService.processPendingOperations_removal_witness :
    (⟨"2", EntityKind.events, OpAction.delete, "fail", "t"⟩ :
        PendingOperation) ∈
      SyncService.processPendingOperations flushEnvExample flushQueueExample
    ∧ (⟨"1", EntityKind.events, OpAction.delete, "ok", "t"⟩ :
        PendingOperation) ∉
      SyncService.processPendingOperations flushEnvExample flushQueueExample
    ∧ opSucceeds flushEnvExample
        ⟨"4", EntityKind.events, OpAction.upsert, "absent", "t"⟩ = true
    ∧ opMakesRemoteCall flushEnvExample
        ⟨"4", EntityKind.events, OpAction.upsert, "absent", "t"⟩ = false := by
  refine ⟨?_, ?_, ?_, ?_⟩
  · have h := SyncService.processPendingOperations_removal
      flushEnvExample flushQueueExample (by decide)
      ⟨"2", EntityKind.events, OpAction.delete, "fail", "t"⟩ (by decide)
    by_contra hmem
    have := h.1.mp hmem
    have hfalse : opSucceeds flushEnvExample
        ⟨"2", EntityKind.events, OpAction.delete, "fail", "t"⟩ = false := by
      decide
    rw [this] at hfalse
    cases hfalse
  · have h := SyncService.processPendingOperations_removal
      flushEnvExample flushQueueExample (by decide)
      ⟨"1", EntityKind.events, OpAction.delete, "ok", "t"⟩ (by decide)
    exact h.1.mpr (by decide)
  · have h := SyncService.processPendingOperations_removal
      flushEnvExample flushQueueExample (by decide)
      ⟨"4", EntityKind.events, OpAction.upsert, "absent", "t"⟩ (by decide)
    exact (h.2 rfl (by decide)).1
  · have h := SyncService.processPendingOperations_removal
      flushEnvExample flushQueueExample (by decide)
      ⟨"4", EntityKind.events, OpAction.upsert, "absent", "t"⟩ (by decide)
    exact (h.2 rfl (by decide)).2

/-- C3 (claim as stated fails on the code): `syncAll` checks only
`canSync()` before starting a full sync — the status signal is not
consulted and no in-flight flag exists — so a second invocation while a
first execution is awaiting its per-kind syncs starts a second
concurrent full-sync execution: the trace model reaches two in-flight
full syncs. -/
theorem syncAll_no_single_flight :
    (schedRun initialSchedulerState
      [SchedEvent.startSync true true,
       SchedEvent.startSync true true]).inFlight = 2
    ∧ (schedRun initialSchedulerState
      [SchedEvent.startSync true true,
       SchedEvent.startSync true true]).status = SyncStatus.syncing := by
  decide

/-- C8: when the local-store write rejects, the entity service's `add`
removes the optimistically appended item again, leaving the UI-facing
in-memory list exactly as before the call (for both `ContactsService`
and `OccasionsService`; the freshly generated id does not occur in the
prior list). -/
theorem entityService_add_rollback
    (contacts : List Contact) (cd : NewContact)
    (occasions : List Occasion) (od : NewOccasion)
    (cid cnow oid onow : String)
    (hc : ∀ c ∈ contacts, c.id ≠ cid)
    (ho : ∀ o ∈ occasions, o.id ≠ oid) :
    (ContactsService.add contacts cd cid cnow true false).1 = contacts
    ∧ (OccasionsService.add occasions od oid onow true false).1
        = occasions := by
  constructor
  · show ((contacts ++
      [(⟨cid, cd.firstName, cd.lastName, cd.email, cd.phone, cd.notes,
        cnow, cnow⟩ : Contact)]).filter (fun c => !(c.id == cid)))
      = contacts
    rw [List.filter_append]
    have h2 : (List.filter (fun (c : Contact) => !(c.id == cid))
        [⟨cid, cd.firstName, cd.lastName, cd.email, cd.phone, cd.notes,
          cnow, cnow⟩]) = [] := by
      simp
    have h1 : contacts.filter (fun c => !(c.id == cid)) = contacts := by
      apply List.filter_eq_self.mpr
      intro c hcm
      simpa [beq_iff_eq] using hc c hcm
    rw [h1, h2, List.append_nil]
  · show ((occasions ++
      [(⟨oid, od.contactId, od.title, od.type, od.date, od.year,
        od.repeatAnnually, od.reminderDaysBefore, od.reminderEnabled,
        od.notes, some onow, some onow⟩ : Occasion)]).filter
        (fun o => !(o.id == oid))) = occasions
    rw [List.filter_append]
    have h2 : (List.filter (fun (o : Occasion) => !(o.id == oid))
        [⟨oid, od.contactId, od.title, od.type, od.date, od.year,
          od.repeatAnnually, od.reminderDaysBefore, od.reminderEnabled,
          od.notes, some onow, some onow⟩]) = [] := by
      simp
    have h1 : occasions.filter (fun o => !(o.id == oid)) = occasions := by
      apply List.filter_eq_self.mpr
      intro o hom
      simpa [beq_iff_eq] using ho o hom
    rw [h1, h2, List.append_nil]

/-- Witness for C8: a failing save rolls the concrete one-element lists
back to their prior state. -/
theorem entityService_add_rollback_witness :
    (ContactsService.add
      [⟨"c0", "Ada", "Lovelace", none, none, none, "t0", "t0"⟩]
      ⟨"Alan", "Turing", none, none, none⟩ "c1" "t1" true false).1
      = [⟨"c0", "Ada", "Lovelace", none, none, none, "t0", "t0"⟩]
    ∧ (OccasionsService.add
      [⟨"o0", "c0", "Birthday", "birthday", "1815-12-10", none, true,
        none, true, none, some "t0", some "t0"⟩]
      ⟨"c0", "Party", "custom", "2024-05-01", none, false, none, false,
        none⟩ "o1" "t1" true false).1
      = [⟨"o0", "c0", "Birthday", "birthday", "1815-12-10", none, true,
        none, true, none, some "t0", some "t0"⟩] := by
  have h := entityService_add_rollback
    [⟨"c0", "Ada", "Lovelace", none, none, none, "t0", "t0"⟩]
    ⟨"Alan", "Turing", none, none, none⟩
    [⟨"o0", "c0", "Birthday", "birthday", "1815-12-10", none, true,
      none, true, none, some "t0", some "t0"⟩]
    ⟨"c0", "Party", "custom", "2024-05-01", none, false, none, false,
      none⟩
    "c1" "t1" "o1" "t1" (by decide) (by decide)
  exact h

/-- C9: the local store's read path converts a storage-engine fault into
an empty list (and returns the rows unchanged on success), while the
write paths `saveEvent` and `deleteEvent` rethrow the fault to the
caller. -/
theorem storageService_read_recovers_writes_propagate
    (err : String) (evs : List SyncEntity) :
    StorageService.loadEvents (Except.error err) = []
    ∧ StorageService.loadEvents (Except.ok evs) = evs
    ∧ StorageService.saveEvent (Except.error err) = Except.error err
    ∧ StorageService.deleteEvent (Except.error err) = Except.error err :=
  ⟨rfl, rfl, rfl, rfl⟩

/-- C4 counterexample: the cloud-only revision's event translation
(lines 1545–1599) does not preserve the timestamps — `toSupabaseEvent`
overwrites `created_at`/`updated_at` with the current time and
`fromSupabaseEvent` drops them entirely, so the roundtrip of an event
carrying timestamps returns an event with none. -/
theorem supabase_event_roundtrip_counterexample :
    (SupabaseService.fromSupabaseEventV2
        (SupabaseService.toSupabaseEventV2
          ⟨"e1", some "Party", none, some "2024-05-01", none, some true,
            some false, none, none, none, none, none, some false,
            some "2024-01-01T00:00:00Z", some "2024-01-02T00:00:00Z"⟩
          "u1" "2024-06-01T00:00:00Z")).updatedAt = none
    ∧ (SupabaseService.fromSupabaseEventV2
        (SupabaseService.toSupabaseEventV2
          ⟨"e1", some "Party", none, some "2024-05-01", none, some true,
            some false, none, none, none, none, none, some false,
            some "2024-01-01T00:00:00Z", some "2024-01-02T00:00:00Z"⟩
          "u1" "2024-06-01T00:00:00Z")).createdAt = none
    ∧ (⟨"e1", some "Party", none, some "2024-05-01", none, some true,
          some false, none, none, none, none, none, some false,
          some "2024-01-01T00:00:00Z", some "2024-01-02T00:00:00Z"⟩ :
        CalendarEvent).updatedAt = some "2024-01-02T00:00:00Z"
    ∧ (SupabaseService.toSupabaseEventV2
          ⟨"e1", some "Party", none, some "2024-05-01", none, some true,
            some false, none, none, none, none, none, some false,
            some "2024-01-01T00:00:00Z", some "2024-01-02T00:00:00Z"⟩
          "u1" "2024-06-01T00:00:00Z").updated_at
        = "2024-06-01T00:00:00Z" :=
  ⟨rfl, rfl, rfl, rfl⟩

/-- C4 (amended): the roundtrip always preserves `id`; the sync-era
event translation preserves `createdAt` and `updatedAt` whenever they
are present, and the contact and occasion translations preserve all
three fields verbatim; the cloud-only revision's event translation
preserves only `id` of the three — it returns an event with no
timestamps at all. -/
theorem supabase_roundtrip_preserves_merge_fields
    (e : CalendarEvent) (c : Contact) (o : Occasion) (uid now : String)
    (ca ua : String)
    (hca : e.createdAt = some ca) (hua : e.updatedAt = some ua) :
    ((SupabaseService.fromSupabaseEvent
        (SupabaseService.toSupabaseEvent e uid now)).id = e.id
      ∧ (SupabaseService.fromSupabaseEvent
        (SupabaseService.toSupabaseEvent e uid now)).createdAt = some ca
      ∧ (SupabaseService.fromSupabaseEvent
        (SupabaseService.toSupabaseEvent e uid now)).updatedAt = some ua)
    ∧ ((SupabaseService.fromSupabaseContact
        (SupabaseService.toSupabaseContact c uid)).id = c.id
      ∧ (SupabaseService.fromSupabaseContact
        (SupabaseService.toSupabaseContact c uid)).createdAt = c.createdAt
      ∧ (SupabaseService.fromSupabaseContact
        (SupabaseService.toSupabaseContact c uid)).updatedAt = c.updatedAt)
    ∧ ((SupabaseService.fromSupabaseOccasion
        (SupabaseService.toSupabaseOccasion o uid)).id = o.id
      ∧ (SupabaseService.fromSupabaseOccasion
        (SupabaseService.toSupabaseOccasion o uid)).createdAt = o.createdAt
      ∧ (SupabaseService.fromSupabaseOccasion
        (SupabaseService.toSupabaseOccasion o uid)).updatedAt = o.updatedAt)
    ∧ ((SupabaseService.fromSupabaseEventV2
        (SupabaseService.toSupabaseEventV2 e uid now)).id = e.id
      ∧ (SupabaseService.fromSupabaseEventV2
        (SupabaseService.toSupabaseEventV2 e uid now)).createdAt = none
      ∧ (SupabaseService.fromSupabaseEventV2
        (SupabaseService.toSupabaseEventV2 e uid now)).updatedAt = none) := by
  refine ⟨⟨rfl, ?_, ?_⟩, ⟨rfl, rfl, rfl⟩, ⟨rfl, rfl, rfl⟩,
    ⟨rfl, rfl, rfl⟩⟩
  · show some (e.createdAt.getD now) = some ca
    rw [hca]
    rfl
  · show some (e.updatedAt.getD now) = some ua
    rw [hua]
    rfl

/-- Witness for C4 (amended): the sync-era roundtrip of a concrete event
returns its timestamps unchanged, while the cloud-only roundtrip of the
same event drops them. -/
theorem supabase_roundtrip_preserves_merge_fields_witness :
    (SupabaseService.fromSupabaseEvent
        (SupabaseService.toSupabaseEvent
          ⟨"e1", some "Party", none, some "2024-05-01", none, some true,
            some false, none, none, none, none, none, some false,
            some "2024-01-01T00:00:00Z", some "2024-01-02T00:00:00Z"⟩
          "u1" "2024-06-01T00:00:00Z")).updatedAt
      = some "2024-01-02T00:00:00Z"
    ∧ (SupabaseService.fromSupabaseEvent
        (SupabaseService.toSupabaseEvent
          ⟨"e1", some "Party", none, some "2024-05-01", none, some true,
            some false, none, none, none, none, none, some false,
            some "2024-01-01T00:00:00Z", some "2024-01-02T00:00:00Z"⟩
          "u1" "2024-06-01T00:00:00Z")).createdAt
      = some "2024-01-01T00:00:00Z"
    ∧ (SupabaseService.fromSupabaseContact
        (SupabaseService.toSupabaseContact
          ⟨"c1", "Ada", "Lovelace", none, none, none, "t0", "t1"⟩
          "u1")).updatedAt = "t1" := by
  have h := supabase_roundtrip_preserves_merge_fields
    ⟨"e1", some "Party", none, some "2024-05-01", none, some true,
      some false, none, none, none, none, none, some false,
      some "2024-01-01T00:00:00Z", some "2024-01-02T00:00:00Z"⟩
    ⟨"c1", "Ada", "Lovelace", none, none, none, "t0", "t1"⟩
    ⟨"o1", "c1", "Birthday", "birthday", "1815-12-10", none, true, none,
      true, none, some "t0", some "t1"⟩
    "u1" "2024-06-01T00:00:00Z"
    "2024-01-01T00:00:00Z" "2024-01-02T00:00:00Z" rfl rfl
  exact ⟨h.1.2.2, h.1.2.1, h.2.1.2.2⟩

end CalendarSync

